import Mathlib

/-
Verification of the deduplication/consolidation core of the
Spotify_Listening_History_Database repository.

The development shallowly embeds, as Lean functions over lists of records:
  - the tracks / albums / artists / track_artists / music_listening_history
    tables (src/utils/.ipynb_checkpoints/db_utils-checkpoint.py, create_tables);
  - TRACK_MAPPING_QUERY (lines 628-706 of db_utils-checkpoint.py);
  - TRACKS_CONSOLIDATED_QUERY (lines 708-744);
  - update_music_listening_history, process_duplicate_artists (lines 486-573);
  - retry_operation and RETRY_CONFIG (src/utils/spotify_utils.py, lines 40-125);
  - the main update sequence of src/db_updates.py.

Modelling conventions:
  - SQL rows are Lean structures; a table is a List of rows in insertion order.
  - The audio-feature columns (acousticness .. time_signature) are SQL floats
    that every query in scope copies through unchanged and never compares, so
    they are not carried in the embedded rows.
  - SQL dates are modelled as Nat day counts (only their ordering is used).
  - Text ordering (the ORDER BY tie-break on spotify_track_id) is modelled as
    lexicographic comparison of the character codepoints.
  - NULL never arises in the columns the queries compare: the embedded columns
    are non-optional, matching the ingested data.
  - The checkpoint queries read the production table names (tracks, albums,
    track_mapping, ...) while truncating/inserting the *_test variants; the
    embedding identifies each pair as the single logical table of the design.
-/

/-- A row of the tracks table. -/
structure Track where
  uri : String
  id : String
  artistId : String
  albumId : String
  name : String
  durationMs : Nat
  popularity : Int
  deriving DecidableEq, Repr

/-- A row of the albums table (total_tracks and label are never read by the
queries in scope and are omitted). -/
structure Album where
  id : String
  artistId : String
  name : String
  albumType : String
  releaseDate : Nat
  releaseDatePrecision : String
  deriving DecidableEq, Repr

/-- A row of the artists table. -/
structure Artist where
  id : String
  name : String
  popularity : Int
  followers : Int
  deriving DecidableEq, Repr

/-- A row of the track_artists association table. -/
structure TrackArtist where
  trackUri : String
  trackId : String
  artistId : String
  deriving DecidableEq, Repr

/-- A row of the music_listening_history table (playback columns that no
operation in scope touches are omitted). -/
structure MlhRow where
  artistId : Option String
  albumId : Option String
  trackUri : String
  trackName : String
  artistName : String
  deriving DecidableEq, Repr

/-- Lexicographic comparison of codepoint lists, the embedding of the SQL
text ordering used by the ORDER BY tie-break. -/
def strLeAux : List Char → List Char → Bool
  | [], _ => true
  | _ :: _, [] => false
  | a :: as, b :: bs =>
    if a.toNat < b.toNat then true
    else if b.toNat < a.toNat then false
    else strLeAux as bs

/-- Text less-or-equal on strings. -/
def strLe (s t : String) : Bool := strLeAux s.data t.data

/-- The CASE expression of TRACK_MAPPING_QUERY: album 1, single 2,
compilation 3, anything else 4. -/
def albumTypeRank (ty : String) : Nat :=
  if ty = "album" then 1
  else if ty = "single" then 2
  else if ty = "compilation" then 3
  else 4

/-- The quantized duration bucket of TRACK_MAPPING_QUERY:
duration_ms - duration_ms % 3000. -/
def durationGroup (t : Track) : Nat := t.durationMs - t.durationMs % 3000

/-- The grouping key of TRACK_MAPPING_QUERY: (spotify_artist_id, track_name,
duration_ms_group). -/
def gkeyT (t : Track) : String × String × Nat := (t.artistId, t.name, durationGroup t)

/-- The innermost subquery of TRACK_MAPPING_QUERY: tracks t1 self-joined to
tracks t2 on equal name, equal artist and |duration difference| <= 3000, then
grouped by every t1 column. Each distinct t1 row with at least one partner
(always including itself) survives once; the MIN(t2.duration_ms) aggregate is
not referenced by the enclosing query, so only the filtering effect remains. -/
def innerGrouped (tracks : List Track) : List Track :=
  tracks.filter (fun t1 => tracks.any (fun t2 =>
    t1.name == t2.name && t1.artistId == t2.artistId &&
      ((t1.durationMs : Int) - (t2.durationMs : Int)).natAbs ≤ 3000))

/-- The join of the grouped track rows to the albums table on
spotify_album_id (the x subquery of TRACK_MAPPING_QUERY before windowing). -/
def joinedTA (tracks : List Track) (albums : List Album) : List (Track × Album) :=
  (innerGrouped tracks).flatMap (fun t =>
    (albums.filter (fun a => a.id == t.albumId)).map (fun a => (t, a)))

/-- The ORDER BY of the ROW_NUMBER window: album-type rank ascending, then
track_popularity descending, then release_date ascending, then
spotify_track_id ascending. -/
def keyLe (p q : Track × Album) : Bool :=
  albumTypeRank p.2.albumType < albumTypeRank q.2.albumType
  || (albumTypeRank p.2.albumType == albumTypeRank q.2.albumType
    && (decide (q.1.popularity < p.1.popularity)
      || (p.1.popularity == q.1.popularity
        && (p.2.releaseDate < q.2.releaseDate
          || (p.2.releaseDate == q.2.releaseDate && strLe p.1.id q.1.id)))))

/-- The partition of the joined rows sharing a grouping key (the PARTITION BY
clause of the ROW_NUMBER window). -/
def partitionFor (J : List (Track × Album)) (k : String × String × Nat) :
    List (Track × Album) :=
  J.filter (fun q => gkeyT q.1 == k)

/-- The row that receives ROW_NUMBER 1 in the partition of key k: the head of
the partition sorted by the window ordering. -/
def canonFor (J : List (Track × Album)) (k : String × String × Nat) :
    Option (Track × Album) :=
  (List.insertionSort (fun p q => keyLe p q = true) (partitionFor J k)).head?

/-- The rows of the x subquery kept by WHERE rnk = 1. -/
def rnk1 (J : List (Track × Album)) : List (Track × Album) :=
  J.filter (fun p => decide (canonFor J (gkeyT p.1) = some p))

/-- The rows the final SELECT of TRACK_MAPPING_QUERY emits for one rnk = 1
row x: the left outer join back to every track y with the same artist, name
and duration bucket, emitting (COALESCE(y.uri, x.uri), x.uri); the NULL row
of the outer join arises only when no y matches. -/
def mappingRows (tracks : List Track) (x : Track × Album) : List (String × String) :=
  let ys := tracks.filter (fun y =>
    x.1.artistId == y.artistId && x.1.name == y.name &&
      durationGroup x.1 == y.durationMs - y.durationMs % 3000)
  if ys.isEmpty then [(x.1.uri, x.1.uri)] else ys.map (fun y => (y.uri, x.1.uri))

/-- The full TRACK_MAPPING_QUERY output: the union of the emitted rows over
all rnk = 1 rows. -/
def trackMapping (tracks : List Track) (albums : List Album) :
    List (String × String) :=
  (rnk1 (joinedTA tracks albums)).flatMap (mappingRows tracks)

/-- The ORDER BY key inside STRING_AGG of TRACKS_CONSOLIDATED_QUERY: 1 when
the association's artist is the track's own primary artist, else 2. -/
def anRank (x : TrackArtist × Artist × Track) : Nat :=
  if x.1.artistId == x.2.2.artistId then 1 else 2

/-- The join inside the an subquery of TRACKS_CONSOLIDATED_QUERY:
track_artists to artists on spotify_artist_id and to tracks on
spotify_track_id. -/
def anJoined (trackArtists : List TrackArtist) (artists : List Artist)
    (tracks : List Track) : List (TrackArtist × Artist × Track) :=
  trackArtists.flatMap (fun r =>
    (artists.filter (fun a => a.id == r.artistId)).flatMap (fun a =>
      (tracks.filter (fun t => t.id == r.trackId)).map (fun t => (r, a, t))))

/-- The an subquery of TRACKS_CONSOLIDATED_QUERY: one row per
spotify_track_id occurring in the join, carrying
STRING_AGG(artist_name, ', ' ORDER BY primary-artist-first). The order among
the non-primary artists is database-assigned; the embedding fixes it with a
stable sort on the two-valued key, which refines every order the engine may
choose. -/
def anRows (trackArtists : List TrackArtist) (artists : List Artist)
    (tracks : List Track) : List (String × String) :=
  let j := anJoined trackArtists artists tracks
  ((j.map (fun x => x.1.trackId)).dedup).map (fun tid =>
    let g := j.filter (fun x => x.1.trackId == tid)
    (tid, String.intercalate ", "
      ((List.insertionSort (fun x y => anRank x ≤ anRank y) g).map
        (fun x => x.2.1.name))))

/-- The full TRACKS_CONSOLIDATED_QUERY output: tracks joined to the mapping
table on new_track_uri and to the an subquery on spotify_track_id, SELECT
DISTINCT. A row is the canonical track together with its aggregated
artist-name string. -/
def tracksConsolidated (tracks : List Track) (mapping : List (String × String))
    (trackArtists : List TrackArtist) (artists : List Artist) :
    List (Track × String) :=
  (tracks.flatMap (fun t =>
    (mapping.filter (fun tm => tm.2 == t.uri)).flatMap (fun _ =>
      ((anRows trackArtists artists tracks).filter (fun ar => ar.1 == t.id)).map
        (fun ar => (t, ar.2))))).dedup

/-- The display names of the artists associated to a track id, as the an
subquery resolves them: associations filtered to the track id, each joined to
the artists table. -/
def assocArtistNames (trackArtists : List TrackArtist) (artists : List Artist)
    (tid : String) : List String :=
  (trackArtists.filter (fun r => r.trackId == tid)).flatMap (fun r =>
    (artists.filter (fun a => a.id == r.artistId)).map Artist.name)

/-- The database state: the tables touched by src/db_updates.py. -/
structure DB where
  mlh : List MlhRow
  tracks : List Track
  trackArtists : List TrackArtist
  artists : List Artist
  albums : List Album
  trackMappingTable : List (String × String)
  tracksConsolidatedTable : List (Track × String)
  deriving DecidableEq, Repr

/-- A Python runtime error observable from the embedded operations. -/
inductive PyError
  | nameError
  deriving DecidableEq, Repr

/-- The update_music_listening_history function (db_utils-checkpoint.py lines
486-507): one UPDATE joining the history to tracks on spotify_track_uri,
copying artist and album ids, followed by one commit (the returned Nat counts
the commits executed). -/
def update_music_listening_history (db : DB) : DB × Nat :=
  ({ db with mlh := db.mlh.map (fun r =>
      match db.tracks.find? (fun t => t.uri == r.trackUri) with
      | some t => { r with artistId := some t.artistId, albumId := some t.albumId }
      | none => r) }, 1)

/-- The duplicate-name query of process_duplicate_artists (lines 526-530):
artist names grouped with HAVING count greater than 1. -/
def duplicateArtistNames (artists : List Artist) : List String :=
  ((artists.map (fun a => a.name)).dedup).filter
    (fun n => 1 < artists.countP (fun a => a.name == n))

/-- The process_duplicate_artists function (lines 509-573). After collecting
the duplicate names, line 531 evaluates
logger.error(f"Failed to process album \x7balbum_name\x7d: \x7be\x7d")
where neither album_name nor e is defined anywhere in the function, so every
call raises NameError there, before any UPDATE or commit. The result is the
error, the unchanged database, and the number of commits executed (0). The
renaming loop that follows the raise (lines 533-573) is unreachable; it is
embedded separately as rename_duplicates below. -/
def process_duplicate_artists (db : DB) : Option PyError × DB × Nat :=
  let _dupNames := duplicateArtistNames db.artists
  (some PyError.nameError, db, 0)

/-- The suffix-assignment loop of process_duplicate_artists (lines 543-556):
walking the follower-sorted rows, the first occurrence of a name keeps it and
each later occurrence n gets "name (n)". The accumulator is the
artist_counts dictionary as an association list. -/
def assignSuffixes : List Artist → List (String × Nat) → List (String × String)
  | [], _ => []
  | a :: rest, counts =>
    match counts.find? (fun c => c.1 == a.name) with
    | some c =>
      (a.id, a.name ++ " (" ++ toString (c.2 + 1) ++ ")") ::
        assignSuffixes rest
          (counts.map (fun d => if d.1 == a.name then (d.1, d.2 + 1) else d))
    | none => (a.id, a.name) :: assignSuffixes rest ((a.name, 1) :: counts)

/-- One iteration of the update loop (lines 562-573): rename the artist row
with the given id and every history row carrying that artist id. -/
def applyRename (db : DB) (r : String × String) : DB :=
  { db with
    artists := db.artists.map (fun a => if a.id == r.1 then { a with name := r.2 } else a),
    mlh := db.mlh.map (fun m =>
      if m.artistId == some r.1 then { m with artistName := r.2 } else m) }

/-- The renaming logic of process_duplicate_artists as written on lines
533-573 (unreachable behind the NameError): select the rows whose name is
duplicated, sort by followers descending (pandas sort_values; the embedding
uses a stable sort, one of the orders the unstable sort may produce), assign
suffixes, and apply each rename with a commit per row. Returns the new state
and the number of commits executed. -/
def rename_duplicates (db : DB) : DB × Nat :=
  let dupNames := duplicateArtistNames db.artists
  let rows := db.artists.filter (fun a => dupNames.contains a.name)
  let sorted := List.insertionSort (fun a b : Artist => b.followers ≤ a.followers) rows
  let plan := assignSuffixes sorted []
  (plan.foldl (fun acc r => applyRename acc r) db, plan.length)

/-- The rebuild block of db_updates.main (lines 47-54): execute
TRACK_MAPPING_QUERY, then TRACKS_CONSOLIDATED_QUERY (which reads the mapping
table just rebuilt), then a single commit closing the transaction. -/
def run_rebuild_queries (db : DB) : DB × Nat :=
  let db1 := { db with trackMappingTable := trackMapping db.tracks db.albums }
  let c := tracksConsolidated db1.tracks db1.trackMappingTable db1.trackArtists db1.artists
  let db2 := { db1 with tracksConsolidatedTable := c }
  (db2, 1)

/-- The main sequence of src/db_updates.py: history backfill, duplicate-artist
processing, then the rebuild block; an uncaught error aborts the run at the
point it is raised. The Nat accumulates the commits executed. -/
def db_updates_main (db : DB) : Option PyError × DB × Nat :=
  let r1 := update_music_listening_history db
  match process_duplicate_artists r1.1 with
  | (some e, db2, c2) => (some e, db2, r1.2 + c2)
  | (none, db2, c2) =>
    let r3 := run_rebuild_queries db2
    (none, r3.1, r1.2 + c2 + r3.2)

/-- The outcome of the retry wrapper of spotify_utils.py: the wrapped value,
the MaxRetriesExceededException raise, or the implicit None return when the
configured cap is no attempt at all. -/
inductive RetryOutcome (α : Type)
  | success (a : α)
  | maxRetriesExceeded
  | noAttempt
  deriving DecidableEq, Repr

/-- The RETRY_CONFIG dictionary of spotify_utils.py. -/
structure RetryConfig where
  maxRetries : Nat
  delay : Nat
  deriving DecidableEq, Repr

/-- The retry configuration: max_retries 3, delay 10 seconds. -/
def RETRY_CONFIG : RetryConfig := ⟨3, 10⟩

/-- The while loop of retry_operation (spotify_utils.py lines 104-124).
The argument f gives the outcome of each attempt (indexed from 0); fuel is
max_retries - attempt, so fuel 0 is the loop exit returning None. On an
exception the attempt counter is incremented; at the cap the dedicated
exception is raised, otherwise the loop sleeps delay seconds (recorded in the
returned list) and retries. -/
def retryAux {α : Type} (f : Nat → Except String α) (delay : Nat) :
    Nat → Nat → RetryOutcome α × List Nat
  | _, 0 => (RetryOutcome.noAttempt, [])
  | attempt, fuel + 1 =>
    match f attempt with
    | Except.ok a => (RetryOutcome.success a, [])
    | Except.error _ =>
      if fuel = 0 then (RetryOutcome.maxRetriesExceeded, [])
      else
        let r := retryAux f delay (attempt + 1) fuel
        (r.1, delay :: r.2)

/-- The retry_operation decorator applied to an operation: run the attempt
loop from attempt 0 with the configured cap and delay. -/
def retry_operation {α : Type} (f : Nat → Except String α) (cfg : RetryConfig) :
    RetryOutcome α × List Nat :=
  retryAux f cfg.delay 0 cfg.maxRetries

/-- The fetch_batch_tracks operation: its body delegated to the catalog
client, wrapped by retry_operation under RETRY_CONFIG. -/
def fetch_batch_tracks {α : Type} (call : Nat → Except String α) :
    RetryOutcome α × List Nat :=
  retry_operation call RETRY_CONFIG

/-- The fetch_audio_features operation, wrapped by retry_operation. -/
def fetch_audio_features {α : Type} (call : Nat → Except String α) :
    RetryOutcome α × List Nat :=
  retry_operation call RETRY_CONFIG

/-- The fetch_album operation, wrapped by retry_operation. -/
def fetch_album {α : Type} (call : Nat → Except String α) :
    RetryOutcome α × List Nat :=
  retry_operation call RETRY_CONFIG

/-- The fetch_artist operation, wrapped by retry_operation. -/
def fetch_artist {α : Type} (call : Nat → Except String α) :
    RetryOutcome α × List Nat :=
  retry_operation call RETRY_CONFIG

/-- Concrete track A of the spec scenario: duration 180000, on an album. -/
def trA : Track := ⟨"uri:A", "idA", "art1", "albA", "Song X", 180000, 50⟩

/-- Concrete track B of the spec scenario: duration 181500, on a single. -/
def trB : Track := ⟨"uri:B", "idB", "art1", "albB", "Song X", 181500, 99⟩

/-- Track B with an album id matching no Album row. -/
def trBnoAlbum : Track := ⟨"uri:B", "idB", "art1", "albZ", "Song X", 181500, 99⟩

/-- A track at 179000 ms: bucket 177000. -/
def trD : Track := ⟨"uri:D", "idD", "art1", "albA", "Song X", 179000, 50⟩

/-- A track at 181000 ms: bucket 180000, within 2000 ms of trD. -/
def trE : Track := ⟨"uri:E", "idE", "art1", "albB", "Song X", 181000, 99⟩

/-- The album of trA. -/
def albA : Album := ⟨"albA", "art1", "Album A", "album", 100, "day"⟩

/-- The single of trB. -/
def albB : Album := ⟨"albB", "art1", "Single B", "single", 50, "day"⟩

/-- A duplicated artist name with the larger follower count. -/
def bobBig : Artist := ⟨"artBob1", "Bob", 10, 1000⟩

/-- The same display name with the smaller follower count. -/
def bobSmall : Artist := ⟨"artBob2", "Bob", 5, 50⟩

/-- A database state holding a duplicated artist name. -/
def exDB : DB :=
  ⟨[⟨none, none, "uri:A", "Song X", "Bob"⟩], [trA], [], [bobBig, bobSmall], [albA], [], []⟩

/-- The primary artist of trA. -/
def primArtist : Artist := ⟨"art1", "Primary", 10, 10⟩

/-- A contributing artist of trA. -/
def featArtist : Artist := ⟨"art2", "Feature", 9, 9⟩

/-- The association of trA to its primary artist. -/
def taPrim : TrackArtist := ⟨"uri:A", "idA", "art1"⟩

/-- The association of trA to its contributing artist. -/
def taFeat : TrackArtist := ⟨"uri:A", "idA", "art2"⟩

/-- An attempt function failing once and then succeeding. -/
def callOnceFailing : Nat → Except String Nat :=
  fun i => if i = 0 then Except.error "boom" else Except.ok 7

/-- An attempt function failing on every attempt. -/
def callAlwaysFailing : Nat → Except String Nat :=
  fun _ => Except.error "boom"

theorem strLeAux_total : ∀ as bs, strLeAux as bs = true ∨ strLeAux bs as = true := by
  intro as
  induction as with
  | nil => intro bs; left; rfl
  | cons a as ih =>
    intro bs
    cases bs with
    | nil => right; rfl
    | cons b bs =>
      by_cases h1 : a.toNat < b.toNat
      · left; simp [strLeAux, h1]
      · by_cases h2 : b.toNat < a.toNat
        · right; simp [strLeAux, h2]
        · rcases ih bs with h | h
          · left; simp [strLeAux, h1, h2, h]
          · right; simp [strLeAux, h1, h2, h]

theorem strLeAux_trans : ∀ as bs cs, strLeAux as bs = true → strLeAux bs cs = true →
    strLeAux as cs = true := by
  intro as
  induction as with
  | nil => intro bs cs _ _; rfl
  | cons a as ih =>
    intro bs cs hab hbc
    cases bs with
    | nil => simp [strLeAux] at hab
    | cons b bs =>
      cases cs with
      | nil => simp [strLeAux] at hbc
      | cons c cs =>
        by_cases h1 : a.toNat < b.toNat
        · by_cases h2 : b.toNat < c.toNat
          · have hac : a.toNat < c.toNat := h1.trans h2
            simp [strLeAux, hac]
          · by_cases h3 : c.toNat < b.toNat
            · simp [strLeAux, h2, h3] at hbc
            · have hac : a.toNat < c.toNat := by omega
              simp [strLeAux, hac]
        · by_cases h1' : b.toNat < a.toNat
          · simp [strLeAux, h1, h1'] at hab
          · have hab2 : strLeAux as bs = true := by simpa [strLeAux, h1, h1'] using hab
            by_cases h2 : b.toNat < c.toNat
            · have hac : a.toNat < c.toNat := by omega
              simp [strLeAux, hac]
            · by_cases h3 : c.toNat < b.toNat
              · simp [strLeAux, h2, h3] at hbc
              · have hbc2 : strLeAux bs cs = true := by simpa [strLeAux, h2, h3] using hbc
                have n1 : ¬ a.toNat < c.toNat := by omega
                have n2 : ¬ c.toNat < a.toNat := by omega
                simp [strLeAux, n1, n2, ih bs cs hab2 hbc2]

theorem strLe_total (s t : String) : strLe s t = true ∨ strLe t s = true :=
  strLeAux_total s.data t.data

theorem strLe_trans {s t u : String} (h1 : strLe s t = true) (h2 : strLe t u = true) :
    strLe s u = true :=
  strLeAux_trans s.data t.data u.data h1 h2

theorem keyLe_iff (p q : Track × Album) :
    keyLe p q = true ↔
      (albumTypeRank p.2.albumType < albumTypeRank q.2.albumType ∨
        (albumTypeRank p.2.albumType = albumTypeRank q.2.albumType ∧
          (q.1.popularity < p.1.popularity ∨
            (p.1.popularity = q.1.popularity ∧
              (p.2.releaseDate < q.2.releaseDate ∨
                (p.2.releaseDate = q.2.releaseDate ∧ strLe p.1.id q.1.id = true)))))) := by
  simp [keyLe, Bool.or_eq_true, Bool.and_eq_true, decide_eq_true_eq, beq_iff_eq]

theorem keyLe_total : ∀ p q : Track × Album, keyLe p q = true ∨ keyLe q p = true := by
  intro p q
  rw [keyLe_iff, keyLe_iff]
  by_cases h1 : albumTypeRank p.2.albumType < albumTypeRank q.2.albumType
  · exact Or.inl (Or.inl h1)
  by_cases h1' : albumTypeRank q.2.albumType < albumTypeRank p.2.albumType
  · exact Or.inr (Or.inl h1')
  by_cases h2 : q.1.popularity < p.1.popularity
  · exact Or.inl (Or.inr ⟨by omega, Or.inl h2⟩)
  by_cases h2' : p.1.popularity < q.1.popularity
  · exact Or.inr (Or.inr ⟨by omega, Or.inl h2'⟩)
  by_cases h3 : p.2.releaseDate < q.2.releaseDate
  · exact Or.inl (Or.inr ⟨by omega, Or.inr ⟨by omega, Or.inl h3⟩⟩)
  by_cases h3' : q.2.releaseDate < p.2.releaseDate
  · exact Or.inr (Or.inr ⟨by omega, Or.inr ⟨by omega, Or.inl h3'⟩⟩)
  rcases strLe_total p.1.id q.1.id with h | h
  · exact Or.inl (Or.inr ⟨by omega, Or.inr ⟨by omega, Or.inr ⟨by omega, h⟩⟩⟩)
  · exact Or.inr (Or.inr ⟨by omega, Or.inr ⟨by omega, Or.inr ⟨by omega, h⟩⟩⟩)

theorem keyLe_trans : ∀ p q r : Track × Album, keyLe p q = true → keyLe q r = true →
    keyLe p r = true := by
  intro p q r hpq hqr
  rw [keyLe_iff] at hpq hqr ⊢
  rcases hpq with h1 | ⟨e1, h2 | ⟨e2, h3 | ⟨e3, h4⟩⟩⟩ <;>
    rcases hqr with g1 | ⟨f1, g2 | ⟨f2, g3 | ⟨f3, g4⟩⟩⟩
  all_goals try exact Or.inl (by omega)
  all_goals try exact Or.inr ⟨by omega, Or.inl (by omega)⟩
  all_goals try exact Or.inr ⟨by omega, Or.inr ⟨by omega, Or.inl (by omega)⟩⟩
  exact Or.inr ⟨by omega, Or.inr ⟨by omega, Or.inr ⟨by omega, strLe_trans h4 g4⟩⟩⟩

instance : IsTotal (Track × Album) (fun p q => keyLe p q = true) := ⟨keyLe_total⟩

instance : IsTrans (Track × Album) (fun p q => keyLe p q = true) := ⟨keyLe_trans⟩

theorem mem_partitionFor {J : List (Track × Album)} {p : Track × Album}
    {k : String × String × Nat} : p ∈ partitionFor J k ↔ p ∈ J ∧ gkeyT p.1 = k := by
  simp [partitionFor, List.mem_filter]

theorem innerGrouped_self {tracks : List Track} {t : Track} (ht : t ∈ tracks) :
    t ∈ innerGrouped tracks := by
  refine List.mem_filter.2 ⟨ht, ?_⟩
  refine List.any_eq_true.2 ⟨t, ht, ?_⟩
  simp

theorem innerGrouped_sub {tracks : List Track} {t : Track} (h : t ∈ innerGrouped tracks) :
    t ∈ tracks :=
  List.mem_of_mem_filter h

theorem mem_joinedTA {tracks : List Track} {albums : List Album} {x : Track × Album} :
    x ∈ joinedTA tracks albums ↔
      x.1 ∈ innerGrouped tracks ∧ x.2 ∈ albums ∧ x.2.id = x.1.albumId := by
  unfold joinedTA
  rw [List.mem_flatMap]
  constructor
  · rintro ⟨t, ht, hmem⟩
    rcases List.mem_map.1 hmem with ⟨a, haf, heq⟩
    rcases List.mem_filter.1 haf with ⟨haA, hid⟩
    subst heq
    exact ⟨ht, haA, by simpa using hid⟩
  · rintro ⟨h1, h2, h3⟩
    refine ⟨x.1, h1, List.mem_map.2 ⟨x.2, List.mem_filter.2 ⟨h2, by simp [h3]⟩, rfl⟩⟩

theorem canon_spec {J : List (Track × Album)} {p : Track × Album} (hp : p ∈ J) :
    ∃ x, canonFor J (gkeyT p.1) = some x ∧ x ∈ J ∧ gkeyT x.1 = gkeyT p.1 ∧
      ∀ q ∈ J, gkeyT q.1 = gkeyT p.1 → keyLe x q = true := by
  have hpP : p ∈ partitionFor J (gkeyT p.1) := mem_partitionFor.2 ⟨hp, rfl⟩
  have hperm : (List.insertionSort (fun p q => keyLe p q = true)
      (partitionFor J (gkeyT p.1))).Perm (partitionFor J (gkeyT p.1)) :=
    List.perm_insertionSort _ _
  have hpS : p ∈ List.insertionSort (fun p q => keyLe p q = true)
      (partitionFor J (gkeyT p.1)) := hperm.mem_iff.2 hpP
  have hSne : List.insertionSort (fun p q => keyLe p q = true)
      (partitionFor J (gkeyT p.1)) ≠ [] := List.ne_nil_of_mem hpS
  set S := List.insertionSort (fun p q => keyLe p q = true)
      (partitionFor J (gkeyT p.1)) with hSdef
  have hheadP : S.head hSne ∈ partitionFor J (gkeyT p.1) :=
    hperm.mem_iff.1 (List.head_mem hSne)
  have hsorted : List.Sorted (fun p q => keyLe p q = true) S :=
    List.sorted_insertionSort _ _
  have hcons : S.head hSne :: S.tail = S := List.head_cons_tail S hSne
  refine ⟨S.head hSne, ?_, (mem_partitionFor.1 hheadP).1, (mem_partitionFor.1 hheadP).2, ?_⟩
  · show S.head? = some (S.head hSne)
    exact List.head?_eq_head hSne
  · intro q hq hk
    have hqP : q ∈ partitionFor J (gkeyT p.1) := mem_partitionFor.2 ⟨hq, hk⟩
    have hqS : q ∈ S := hperm.mem_iff.2 hqP
    rw [← hcons] at hqS
    rcases List.mem_cons.1 hqS with rfl | hqt
    · exact (keyLe_total _ _).elim id id
    · rw [← hcons] at hsorted
      exact (List.sorted_cons.1 hsorted).1 q hqt

theorem canonFor_mem {J : List (Track × Album)} {k : String × String × Nat}
    {x : Track × Album} (h : canonFor J k = some x) : x ∈ J ∧ gkeyT x.1 = k := by
  unfold canonFor at h
  have hx : x ∈ List.insertionSort (fun p q => keyLe p q = true) (partitionFor J k) := by
    cases hS : List.insertionSort (fun p q => keyLe p q = true) (partitionFor J k) with
    | nil => rw [hS] at h; cases h
    | cons a l =>
      rw [hS] at h
      rw [List.head?_cons] at h
      have h' := Option.some.inj h
      rw [← h']
      exact List.mem_cons_self a l
  have := (List.perm_insertionSort (fun p q => keyLe p q = true)
    (partitionFor J k)).mem_iff.1 hx
  exact mem_partitionFor.1 this

theorem mem_rnk1 {J : List (Track × Album)} {x : Track × Album} :
    x ∈ rnk1 J ↔ x ∈ J ∧ canonFor J (gkeyT x.1) = some x := by
  simp [rnk1, List.mem_filter]

theorem rnk1_unique {J : List (Track × Album)} {x1 x2 : Track × Album}
    (h1 : x1 ∈ rnk1 J) (h2 : x2 ∈ rnk1 J) (hk : gkeyT x1.1 = gkeyT x2.1) : x1 = x2 := by
  rcases mem_rnk1.1 h1 with ⟨_, c1⟩
  rcases mem_rnk1.1 h2 with ⟨_, c2⟩
  rw [hk] at c1
  exact Option.some.inj (c1.symm.trans c2)

theorem joinedTA_nodup {tracks : List Track} {albums : List Album}
    (ht : (tracks.map Track.id).Nodup) (ha : (albums.map Album.id).Nodup) :
    (joinedTA tracks albums).Nodup := by
  unfold joinedTA
  rw [List.nodup_flatMap]
  constructor
  · intro t _
    have hfil : (albums.filter (fun a => a.id == t.albumId)).Nodup :=
      List.Nodup.sublist (List.filter_sublist albums) (List.Nodup.of_map _ ha)
    exact hfil.map (fun a1 a2 h => congrArg Prod.snd h)
  · have hig : ((innerGrouped tracks).map Track.id).Nodup := by
      have hsub : (innerGrouped tracks).Sublist tracks := List.filter_sublist tracks
      exact List.Nodup.sublist (hsub.map Track.id) ht
    have hpw : (innerGrouped tracks).Pairwise (fun t1 t2 => t1.id ≠ t2.id) := by
      have := hig
      rw [List.Nodup, List.pairwise_map] at this
      exact this
    refine hpw.imp ?_
    intro t1 t2 hne
    intro z hz1 hz2
    rcases List.mem_map.1 hz1 with ⟨a1, _, e1⟩
    rcases List.mem_map.1 hz2 with ⟨a2, _, e2⟩
    apply hne
    have : (t1, a1) = (t2, a2) := e1.trans e2.symm
    rw [Prod.mk.injEq] at this
    rw [this.1]

theorem gmatch_iff (x y : Track) :
    (x.artistId == y.artistId && x.name == y.name &&
      (durationGroup x == y.durationMs - y.durationMs % 3000)) = true ↔
      gkeyT y = gkeyT x := by
  simp only [Bool.and_eq_true, beq_iff_eq, gkeyT, durationGroup, Prod.mk.injEq]
  constructor
  · rintro ⟨⟨h1, h2⟩, h3⟩
    exact ⟨h1.symm, h2.symm, h3.symm⟩
  · rintro ⟨h1, h2, h3⟩
    exact ⟨⟨h1.symm, h2.symm⟩, h3.symm⟩

theorem mappingRows_eq {tracks : List Track} {x : Track × Album} (hx : x.1 ∈ tracks) :
    mappingRows tracks x = (tracks.filter (fun y =>
      x.1.artistId == y.artistId && x.1.name == y.name &&
        durationGroup x.1 == y.durationMs - y.durationMs % 3000)).map
      (fun y => (y.uri, x.1.uri)) := by
  unfold mappingRows
  have hmem : x.1 ∈ tracks.filter (fun y =>
      x.1.artistId == y.artistId && x.1.name == y.name &&
        durationGroup x.1 == y.durationMs - y.durationMs % 3000) :=
    List.mem_filter.2 ⟨hx, by simp [durationGroup]⟩
  have hne : tracks.filter (fun y =>
      x.1.artistId == y.artistId && x.1.name == y.name &&
        durationGroup x.1 == y.durationMs - y.durationMs % 3000) ≠ [] :=
    List.ne_nil_of_mem hmem
  simp only [List.isEmpty_iff, hne, if_false]

theorem mem_trackMapping {tracks : List Track} {albums : List Album} {u v : String} :
    (u, v) ∈ trackMapping tracks albums ↔
      ∃ x ∈ rnk1 (joinedTA tracks albums), ∃ y ∈ tracks,
        gkeyT y = gkeyT x.1 ∧ u = y.uri ∧ v = x.1.uri := by
  unfold trackMapping
  rw [List.mem_flatMap]
  constructor
  · rintro ⟨x, hx, hmem⟩
    have hx1 : x.1 ∈ tracks := innerGrouped_sub (mem_joinedTA.1 (mem_rnk1.1 hx).1).1
    rw [mappingRows_eq hx1] at hmem
    rcases List.mem_map.1 hmem with ⟨y, hyf, heq⟩
    rcases List.mem_filter.1 hyf with ⟨hyT, hymatch⟩
    rw [Prod.mk.injEq] at heq
    exact ⟨x, hx, y, hyT, (gmatch_iff x.1 y).1 hymatch, heq.1.symm, heq.2.symm⟩
  · rintro ⟨x, hx, y, hyT, hg, rfl, rfl⟩
    have hx1 : x.1 ∈ tracks := innerGrouped_sub (mem_joinedTA.1 (mem_rnk1.1 hx).1).1
    refine ⟨x, hx, ?_⟩
    rw [mappingRows_eq hx1]
    exact List.mem_map.2 ⟨y, List.mem_filter.2 ⟨hyT, (gmatch_iff x.1 y).2 hg⟩, rfl⟩

theorem sum_map_ite {α : Type} (l : List α) (q : α → Bool) :
    (l.map (fun a => if q a then 1 else 0)).sum = l.countP q := by
  induction l with
  | nil => rfl
  | cons a l ih =>
    rw [List.map_cons, List.sum_cons, List.countP_cons, ih]
    cases hq : q a
    · simp [hq]
    · simp [hq, Nat.add_comm]

theorem countP_key_unique {α β : Type} [DecidableEq β] (l : List α) (f : α → β)
    (hN : (l.map f).Nodup) {x : α} (hx : x ∈ l) (q : α → Bool) :
    l.countP (fun y => (f y == f x) && q y) = if q x then 1 else 0 := by
  induction l with
  | nil => cases hx
  | cons a l ih =>
    rw [List.map_cons, List.nodup_cons] at hN
    rw [List.countP_cons]
    rcases List.mem_cons.1 hx with rfl | hx'
    · have hz : l.countP (fun y => (f y == f x) && q y) = 0 := by
        rw [List.countP_eq_zero]
        intro b hb hcontra
        rw [Bool.and_eq_true] at hcontra
        exact hN.1 (List.mem_map.2 ⟨b, hb, beq_iff_eq.1 hcontra.1⟩)
      rw [hz]
      simp
    · have hfa : ¬ f a = f x := by
        intro h
        exact hN.1 (h ▸ List.mem_map.2 ⟨x, hx', rfl⟩)
      have hp : ((f a == f x) && q a) = false := by
        simp [hfa]
      rw [ih hN.2 hx', hp]
      simp

theorem filter_key_eq {α β : Type} [DecidableEq β] {l : List α} {f : α → β}
    (hN : (l.map f).Nodup) {x : α} (hx : x ∈ l) {k : β} (hk : f x = k) :
    l.filter (fun y => f y == k) = [x] := by
  induction l with
  | nil => cases hx
  | cons a l ih =>
    rw [List.map_cons, List.nodup_cons] at hN
    rcases List.mem_cons.1 hx with rfl | hx'
    · rw [List.filter_cons]
      simp only [hk, beq_self_eq_true, if_true]
      have hz : l.filter (fun y => f y == k) = [] := by
        rw [List.filter_eq_nil_iff]
        intro b hb hcontra
        exact hN.1 (List.mem_map.2 ⟨b, hb, (beq_iff_eq.1 hcontra).trans hk.symm⟩)
      rw [hz]
    · have hfa : ¬ f a = k := by
        intro h
        exact hN.1 (List.mem_map.2 ⟨x, hx', hk.trans h.symm⟩)
      rw [List.filter_cons]
      simp only [hfa, beq_iff_eq, if_false]
      exact ih hN.2 hx'

theorem filter_nodup_singleton {α : Type} {l : List α} (hN : l.Nodup) {x : α}
    (hx : x ∈ l) {p : α → Bool} (hpx : p x = true)
    (huniq : ∀ y ∈ l, p y = true → y = x) : l.filter p = [x] := by
  induction l with
  | nil => cases hx
  | cons a l ih =>
    rw [List.nodup_cons] at hN
    rcases List.mem_cons.1 hx with rfl | hx'
    · rw [List.filter_cons]
      simp only [hpx, if_true]
      have hz : l.filter p = [] := by
        rw [List.filter_eq_nil_iff]
        intro b hb hcontra
        exact hN.1 ((huniq b (List.mem_cons_of_mem x hb) hcontra) ▸ hb)
      rw [hz]
    · have hpa : p a = false := by
        cases hq : p a with
        | false => rfl
        | true => exact absurd ((huniq a (List.mem_cons_self a l) hq) ▸ hx') hN.1
      rw [List.filter_cons]
      simp only [hpa, if_false]
      exact ih hN.2 hx' (fun y hy hpy => huniq y (List.mem_cons_of_mem a hy) hpy)

theorem rnk1_countP_eq_one {J : List (Track × Album)} {k : String × String × Nat}
    {x : Track × Album} (hJ : J.Nodup) (hc : canonFor J k = some x) :
    (rnk1 J).countP (fun p => decide (gkeyT p.1 = k)) = 1 := by
  have hmemx := canonFor_mem hc
  unfold rnk1
  rw [List.countP_filter]
  have hcong : ∀ p ∈ J,
      ((decide (gkeyT p.1 = k) && decide (canonFor J (gkeyT p.1) = some p)) = true) ↔
        (decide (p = x) = true) := by
    intro p _
    simp only [Bool.and_eq_true, decide_eq_true_eq]
    constructor
    · rintro ⟨hk', hcp⟩
      rw [hk'] at hcp
      exact Option.some.inj (hcp.symm.trans hc)
    · rintro rfl
      exact ⟨hmemx.2, by rw [hmemx.2]; exact hc⟩
  rw [List.countP_congr hcong]
  exact List.count_eq_one_of_mem hJ hmemx.1

theorem trackMapping_countP {tracks : List Track} {albums : List Album}
    (ht : (tracks.map Track.id).Nodup) (hu : (tracks.map Track.uri).Nodup)
    (ha : (albums.map Album.id).Nodup) {t : Track} (htm : t ∈ tracks) {a : Album}
    (haA : a ∈ albums) (hid : a.id = t.albumId) :
    (trackMapping tracks albums).countP (fun r => r.1 == t.uri) = 1 := by
  have hJ : (joinedTA tracks albums).Nodup := joinedTA_nodup ht ha
  have hpJ : ((t, a) : Track × Album) ∈ joinedTA tracks albums :=
    mem_joinedTA.2 ⟨innerGrouped_self htm, haA, hid⟩
  rcases canon_spec hpJ with ⟨x0, hc0, _, _, _⟩
  unfold trackMapping
  rw [List.countP_flatMap]
  have hcong : ∀ x ∈ rnk1 (joinedTA tracks albums),
      (List.countP (fun r => r.1 == t.uri) ∘ mappingRows tracks) x =
        if decide (gkeyT x.1 = gkeyT t) then 1 else 0 := by
    intro x hx
    have hx1 : x.1 ∈ tracks := innerGrouped_sub (mem_joinedTA.1 (mem_rnk1.1 hx).1).1
    show List.countP (fun r => r.1 == t.uri) (mappingRows tracks x) = _
    rw [mappingRows_eq hx1, List.countP_map, List.countP_filter]
    have hcong2 : ∀ y ∈ tracks,
        ((((fun r : String × String => r.1 == t.uri) ∘ fun y => (y.uri, x.1.uri)) y &&
          (x.1.artistId == y.artistId && x.1.name == y.name &&
            (durationGroup x.1 == y.durationMs - y.durationMs % 3000))) = true) ↔
          (((Track.uri y == Track.uri t) &&
            (x.1.artistId == y.artistId && x.1.name == y.name &&
              (durationGroup x.1 == y.durationMs - y.durationMs % 3000))) = true) := by
      intro y _
      rw [Function.comp]
    rw [List.countP_congr hcong2]
    rw [countP_key_unique tracks Track.uri hu htm]
    by_cases hgg : gkeyT t = gkeyT x.1
    · rw [if_pos ((gmatch_iff x.1 t).2 hgg), if_pos (by simp [hgg.symm])]
    · rw [if_neg ?_, if_neg ?_]
      · simp only [decide_eq_true_eq]
        exact fun h => hgg h.symm
      · intro hcontra
        exact hgg ((gmatch_iff x.1 t).1 hcontra)
  rw [List.map_congr_left hcong]
  rw [sum_map_ite (rnk1 (joinedTA tracks albums)) (fun x => decide (gkeyT x.1 = gkeyT t))]
  exact rnk1_countP_eq_one hJ hc0

/-- C1: within every candidate group of tracks sharing (primary artist id,
track name, duration bucket) and joined to a valid Album record, exactly one
row is selected as canonical, namely the first under the ordering album-type
rank, then popularity descending, then release date ascending, then track id
ascending; and in the concrete scenario with track A (duration 180000, album)
and track B (duration 181500, single, same name and artist), the mapping maps
the URI of B to the URI of A. -/
theorem claim_C1_canonical_selection :
    (∀ (tracks : List Track) (albums : List Album) (p : Track × Album),
        p ∈ joinedTA tracks albums →
        ∃ x, x ∈ rnk1 (joinedTA tracks albums) ∧ gkeyT x.1 = gkeyT p.1 ∧
          (∀ q, q ∈ rnk1 (joinedTA tracks albums) → gkeyT q.1 = gkeyT p.1 → q = x) ∧
          (∀ q ∈ joinedTA tracks albums, gkeyT q.1 = gkeyT p.1 → keyLe x q = true)) ∧
    ("uri:B", "uri:A") ∈ trackMapping [trA, trB] [albA, albB] := by
  constructor
  · intro tracks albums p hp
    rcases canon_spec hp with ⟨x, hc, hxJ, hk, hmin⟩
    have hxr : x ∈ rnk1 (joinedTA tracks albums) := mem_rnk1.2 ⟨hxJ, by rw [hk]; exact hc⟩
    refine ⟨x, hxr, hk, ?_, hmin⟩
    intro q hq hkq
    exact rnk1_unique hq hxr (by rw [hkq, hk])
  · decide

/-- Witness for C1: the hypothesis is discharged at the concrete pair
(trA, albA) of the two-track scenario. -/
theorem claim_C1_witness :
    (trA, albA) ∈ joinedTA [trA, trB] [albA, albB] ∧
      (∃ x, x ∈ rnk1 (joinedTA [trA, trB] [albA, albB]) ∧
        gkeyT x.1 = gkeyT (trA, albA).1 ∧
        (∀ q, q ∈ rnk1 (joinedTA [trA, trB] [albA, albB]) →
          gkeyT q.1 = gkeyT (trA, albA).1 → q = x) ∧
        (∀ q ∈ joinedTA [trA, trB] [albA, albB],
          gkeyT q.1 = gkeyT (trA, albA).1 → keyLe x q = true)) :=
  ⟨by decide,
    claim_C1_canonical_selection.1 [trA, trB] [albA, albB] (trA, albA) (by decide)⟩

/-- C2: after the mapping rebuild, every track URI with a resolvable album
appears exactly once as a mapping key; any two tracks in the same candidate
group are mapped to the same canonical URI; and every canonical URI (any
mapping value) is itself mapped to itself. -/
theorem claim_C2_mapping_guarantees :
    ∀ (tracks : List Track) (albums : List Album),
      (tracks.map Track.id).Nodup → (tracks.map Track.uri).Nodup →
      (albums.map Album.id).Nodup →
      ((∀ t ∈ tracks, (∃ a ∈ albums, a.id = t.albumId) →
          (trackMapping tracks albums).countP (fun r => r.1 == t.uri) = 1) ∧
       (∀ t1 ∈ tracks, ∀ t2 ∈ tracks, gkeyT t1 = gkeyT t2 →
          ∀ v1 v2, (t1.uri, v1) ∈ trackMapping tracks albums →
            (t2.uri, v2) ∈ trackMapping tracks albums → v1 = v2) ∧
       (∀ u v, (u, v) ∈ trackMapping tracks albums →
          (v, v) ∈ trackMapping tracks albums)) := by
  intro tracks albums ht hu ha
  refine ⟨?_, ?_, ?_⟩
  · rintro t htm ⟨a, haA, hid⟩
    exact trackMapping_countP ht hu ha htm haA hid
  · intro t1 h1 t2 h2 hk v1 v2 hm1 hm2
    rcases mem_trackMapping.1 hm1 with ⟨x1, hx1, y1, hy1, hg1, hu1, hv1⟩
    rcases mem_trackMapping.1 hm2 with ⟨x2, hx2, y2, hy2, hg2, hu2, hv2⟩
    have e1 : y1 = t1 := List.inj_on_of_nodup_map hu hy1 h1 hu1.symm
    have e2 : y2 = t2 := List.inj_on_of_nodup_map hu hy2 h2 hu2.symm
    have hx12 : x1 = x2 := by
      apply rnk1_unique hx1 hx2
      rw [← hg1, e1, hk, ← e2, hg2]
    rw [hv1, hv2, hx12]
  · intro u v hm
    rcases mem_trackMapping.1 hm with ⟨x, hx, y, hy, hg, hu', hv⟩
    have hx1T : x.1 ∈ tracks := innerGrouped_sub (mem_joinedTA.1 (mem_rnk1.1 hx).1).1
    exact mem_trackMapping.2 ⟨x, hx, x.1, hx1T, rfl, hv, hv⟩

/-- Witness for C2: the Nodup hypotheses and the resolvable-album hypothesis
are discharged on the concrete two-track scenario tables. -/
theorem claim_C2_witness :
    ([trA, trB].map Track.id).Nodup ∧ ([trA, trB].map Track.uri).Nodup ∧
      ([albA, albB].map Album.id).Nodup ∧
      (trackMapping [trA, trB] [albA, albB]).countP (fun r => r.1 == trB.uri) = 1 :=
  ⟨by decide, by decide, by decide,
    (claim_C2_mapping_guarantees [trA, trB] [albA, albB] (by decide) (by decide)
      (by decide)).1 trB (by decide) ⟨albB, by decide, by decide⟩⟩

/-- Counterexample to C3 as stated: in the concrete two-track tables where
trBnoAlbum has no matching Album row, its URI does appear in the rebuilt
mapping (as a key), so it is not excluded from the table entirely. -/
theorem claim_C3_counterexample :
    ¬ (∀ t ∈ [trA, trBnoAlbum], (∀ a ∈ [albA], a.id ≠ t.albumId) →
        ∀ r ∈ trackMapping [trA, trBnoAlbum] [albA], r.1 ≠ t.uri ∧ r.2 ≠ t.uri) := by
  decide

/-- C3 as amended: a track with no matching Album row never appears as a
mapping value; it is absent from the mapping entirely when no track of its
candidate group resolves an album; and when some track of its group does
resolve an album, its URI does appear as a key. -/
theorem claim_C3_amended :
    ∀ (tracks : List Track) (albums : List Album),
      (tracks.map Track.uri).Nodup →
      ∀ t ∈ tracks, (∀ a ∈ albums, a.id ≠ t.albumId) →
        ((∀ r ∈ trackMapping tracks albums, r.2 ≠ t.uri) ∧
         ((∀ y ∈ tracks, gkeyT y = gkeyT t → ∀ a ∈ albums, a.id ≠ y.albumId) →
            ∀ r ∈ trackMapping tracks albums, r.1 ≠ t.uri) ∧
         (∀ y ∈ tracks, gkeyT y = gkeyT t → ∀ a ∈ albums, a.id = y.albumId →
            ∃ v, (t.uri, v) ∈ trackMapping tracks albums)) := by
  intro tracks albums hu t htm hnoalb
  refine ⟨?_, ?_, ?_⟩
  · intro r hr hcontra
    have hr' : (r.1, r.2) ∈ trackMapping tracks albums := by
      rw [Prod.mk.eta]
      exact hr
    rcases mem_trackMapping.1 hr' with ⟨x, hx, y, hy, hg, hu', hv⟩
    have hxJ := (mem_rnk1.1 hx).1
    have hx1T : x.1 ∈ tracks := innerGrouped_sub (mem_joinedTA.1 hxJ).1
    have hx1t : x.1 = t := List.inj_on_of_nodup_map hu hx1T htm (by rw [← hv, hcontra])
    rcases mem_joinedTA.1 hxJ with ⟨_, haA, hid⟩
    exact hnoalb x.2 haA (by rw [hid, hx1t])
  · intro hgroup r hr hcontra
    have hr' : (r.1, r.2) ∈ trackMapping tracks albums := by
      rw [Prod.mk.eta]
      exact hr
    rcases mem_trackMapping.1 hr' with ⟨x, hx, y, hy, hg, hu', hv⟩
    have hyt : y = t := List.inj_on_of_nodup_map hu hy htm (by rw [← hu', hcontra])
    have hxJ := (mem_rnk1.1 hx).1
    have hx1T : x.1 ∈ tracks := innerGrouped_sub (mem_joinedTA.1 hxJ).1
    rcases mem_joinedTA.1 hxJ with ⟨_, haA, hid⟩
    exact hgroup x.1 hx1T (by rw [← hg, hyt]) x.2 haA hid
  · intro y hy hgy a haA hid
    have hyJ : ((y, a) : Track × Album) ∈ joinedTA tracks albums :=
      mem_joinedTA.2 ⟨innerGrouped_self hy, haA, hid⟩
    rcases canon_spec hyJ with ⟨x, hc, hxJ, hk, _⟩
    have hxr : x ∈ rnk1 (joinedTA tracks albums) := mem_rnk1.2 ⟨hxJ, by rw [hk]; exact hc⟩
    exact ⟨x.1.uri, mem_trackMapping.2 ⟨x, hxr, t, htm, by rw [hk]; exact hgy.symm, rfl, rfl⟩⟩

/-- Witness for the amended C3: the hypotheses are discharged at trBnoAlbum
in the concrete tables where its group partner trA has a valid album. -/
theorem claim_C3_witness :
    ([trA, trBnoAlbum].map Track.uri).Nodup ∧ trBnoAlbum ∈ [trA, trBnoAlbum] ∧
      (∀ a ∈ [albA], a.id ≠ trBnoAlbum.albumId) ∧
      ((∀ r ∈ trackMapping [trA, trBnoAlbum] [albA], r.2 ≠ trBnoAlbum.uri) ∧
       ((∀ y ∈ [trA, trBnoAlbum], gkeyT y = gkeyT trBnoAlbum →
          ∀ a ∈ [albA], a.id ≠ y.albumId) →
          ∀ r ∈ trackMapping [trA, trBnoAlbum] [albA], r.1 ≠ trBnoAlbum.uri) ∧
       (∀ y ∈ [trA, trBnoAlbum], gkeyT y = gkeyT trBnoAlbum →
          ∀ a ∈ [albA], a.id = y.albumId →
            ∃ v, (trBnoAlbum.uri, v) ∈ trackMapping [trA, trBnoAlbum] [albA])) :=
  ⟨by decide, by decide, by decide,
    claim_C3_amended [trA, trBnoAlbum] [albA] (by decide) trBnoAlbum (by decide)
      (by decide)⟩

/-- C4: two tracks with the same name and primary artist whose durations are
within 3000 ms of each other but fall into different 3000 ms buckets get
different grouping keys and are never mapped to a common canonical URI. -/
theorem claim_C4_bucket_boundary_miss :
    ∀ (tracks : List Track) (albums : List Album),
      (tracks.map Track.uri).Nodup →
      ∀ t1 ∈ tracks, ∀ t2 ∈ tracks,
        t1.name = t2.name → t1.artistId = t2.artistId →
        ((t1.durationMs : Int) - (t2.durationMs : Int)).natAbs ≤ 3000 →
        durationGroup t1 ≠ durationGroup t2 →
        (gkeyT t1 ≠ gkeyT t2 ∧
          ∀ v1 v2, (t1.uri, v1) ∈ trackMapping tracks albums →
            (t2.uri, v2) ∈ trackMapping tracks albums → v1 ≠ v2) := by
  intro tracks albums hu t1 h1 t2 h2 _ _ _ hdg
  have hgk : gkeyT t1 ≠ gkeyT t2 := by
    intro h
    exact hdg (congrArg (fun k => k.2.2) h)
  refine ⟨hgk, ?_⟩
  intro v1 v2 hm1 hm2 hveq
  rcases mem_trackMapping.1 hm1 with ⟨x1, hx1, y1, hy1, hg1, hu1, hv1⟩
  rcases mem_trackMapping.1 hm2 with ⟨x2, hx2, y2, hy2, hg2, hu2, hv2⟩
  have e1 : y1 = t1 := List.inj_on_of_nodup_map hu hy1 h1 hu1.symm
  have e2 : y2 = t2 := List.inj_on_of_nodup_map hu hy2 h2 hu2.symm
  have hx1T : x1.1 ∈ tracks := innerGrouped_sub (mem_joinedTA.1 (mem_rnk1.1 hx1).1).1
  have hx2T : x2.1 ∈ tracks := innerGrouped_sub (mem_joinedTA.1 (mem_rnk1.1 hx2).1).1
  have hxeq : x1.1 = x2.1 :=
    List.inj_on_of_nodup_map hu hx1T hx2T (by rw [← hv1, ← hv2, hveq])
  apply hgk
  rw [← e1, hg1, hxeq, ← hg2, e2]

/-- Witness for C4: the hypotheses are discharged on the concrete
cross-boundary pair trD (179000 ms) and trE (181000 ms). -/
theorem claim_C4_witness :
    ([trD, trE].map Track.uri).Nodup ∧ trD.name = trE.name ∧
      trD.artistId = trE.artistId ∧
      ((trD.durationMs : Int) - (trE.durationMs : Int)).natAbs ≤ 3000 ∧
      durationGroup trD ≠ durationGroup trE ∧
      (gkeyT trD ≠ gkeyT trE ∧
        ∀ v1 v2, (trD.uri, v1) ∈ trackMapping [trD, trE] [albA, albB] →
          (trE.uri, v2) ∈ trackMapping [trD, trE] [albA, albB] → v1 ≠ v2) :=
  ⟨by decide, by decide, by decide, by decide, by decide,
    claim_C4_bucket_boundary_miss [trD, trE] [albA, albB] (by decide) trD (by decide)
      trE (by decide) (by decide) (by decide) (by decide) (by decide)⟩

/-- C5 concerns process_duplicate_artists renaming duplicate artists; the
function instead raises NameError on every input before issuing any UPDATE,
shown here on a database whose artists table holds two artists named Bob.
The renaming described by the claim matches the function's docstring and the
surrounding code (embedded as rename_duplicates), so the stray logging line
is a code bug, not intended behavior. -/
theorem claim_C5_rename_never_runs :
    process_duplicate_artists exDB = (some PyError.nameError, exDB, 0) := rfl

/-- C7: an operation wrapped by retry_operation under RETRY_CONFIG
(max_retries 3, delay 10) returns the result of the first successful attempt,
sleeping the fixed delay between attempts, and raises the dedicated
MaxRetriesExceededException once all 3 attempts have failed. -/
theorem claim_C7_retry_policy :
    ∀ (α : Type) (f : Nat → Except String α),
      (∀ (a : α) (i : Nat), i < 3 → (∀ j, j < i → ∃ e, f j = Except.error e) →
        f i = Except.ok a →
        retry_operation f RETRY_CONFIG = (RetryOutcome.success a, List.replicate i 10)) ∧
      ((∀ j, j < 3 → ∃ e, f j = Except.error e) →
        retry_operation f RETRY_CONFIG = (RetryOutcome.maxRetriesExceeded, [10, 10])) := by
  intro α f
  constructor
  · intro a i hi hprev hok
    interval_cases i
    · simp [retry_operation, RETRY_CONFIG, retryAux, hok]
    · rcases hprev 0 (by omega) with ⟨e0, hf0⟩
      simp [retry_operation, RETRY_CONFIG, retryAux, hf0, hok]
    · rcases hprev 0 (by omega) with ⟨e0, hf0⟩
      rcases hprev 1 (by omega) with ⟨e1, hf1⟩
      simp [retry_operation, RETRY_CONFIG, retryAux, hf0, hf1, hok]
  · intro hall
    rcases hall 0 (by omega) with ⟨e0, hf0⟩
    rcases hall 1 (by omega) with ⟨e1, hf1⟩
    rcases hall 2 (by omega) with ⟨e2, hf2⟩
    simp [retry_operation, RETRY_CONFIG, retryAux, hf0, hf1, hf2]

/-- Witness for C7: both branches are discharged on concrete attempt
functions, one failing once then succeeding, one failing always. -/
theorem claim_C7_witness :
    (callOnceFailing 0 = Except.error "boom") ∧ (callOnceFailing 1 = Except.ok 7) ∧
      retry_operation callOnceFailing RETRY_CONFIG =
        (RetryOutcome.success 7, List.replicate 1 10) ∧
      retry_operation callAlwaysFailing RETRY_CONFIG =
        (RetryOutcome.maxRetriesExceeded, [10, 10]) :=
  ⟨rfl, rfl,
    (claim_C7_retry_policy Nat callOnceFailing).1 7 1 (by omega)
      (fun j hj => ⟨"boom", by interval_cases j; rfl⟩) rfl,
    (claim_C7_retry_policy Nat callAlwaysFailing).2 (fun j _ => ⟨"boom", rfl⟩)⟩

/-- Counterexample to C8 as stated: on the concrete database exDB (two
artists sharing the name Bob), the duplicate-artist rename does not run as a
transaction with exactly one commit at its end; it raises NameError having
executed zero commits. -/
theorem claim_C8_counterexample :
    process_duplicate_artists exDB = (some PyError.nameError, exDB, 0) ∧
      (process_duplicate_artists exDB).2.2 ≠ 1 :=
  ⟨rfl, by decide⟩

/-- C8 as amended: the listening-history backfill commits exactly once at its
end, and the mapping-plus-consolidated rebuild block commits exactly once at
its end; the duplicate-artist rename raises NameError before any UPDATE or
commit, so the whole run aborts right after the backfill's single commit. -/
theorem claim_C8_amended :
    ∀ db : DB,
      (update_music_listening_history db).2 = 1 ∧
      (process_duplicate_artists db).1 = some PyError.nameError ∧
      (process_duplicate_artists db).2.2 = 0 ∧
      (run_rebuild_queries db).2 = 1 ∧
      db_updates_main db = (some PyError.nameError, (update_music_listening_history db).1, 1) :=
  fun _ => ⟨rfl, rfl, rfl, rfl, rfl⟩

/-- C9: running the rebuild block (TRACK_MAPPING_QUERY then
TRACKS_CONSOLIDATED_QUERY, truncate-and-replace) a second time on the state
produced by the first run, with the underlying tracks, albums, track-artist
and artists tables unchanged, yields exactly the same state. -/
theorem claim_C9_rebuild_idempotent :
    ∀ db : DB,
      (run_rebuild_queries (run_rebuild_queries db).1).1 = (run_rebuild_queries db).1 :=
  fun _ => rfl

/-- C10: every call of process_duplicate_artists raises NameError immediately
after collecting the duplicate names (the logging line references the
undefined album_name and e), so it returns the input database unmodified with
zero commits executed. -/
theorem claim_C10_always_name_error :
    ∀ db : DB, process_duplicate_artists db = (some PyError.nameError, db, 0) :=
  fun _ => rfl

theorem flatMap_congr {α β : Type} {l : List α} {f g : α → List β}
    (h : ∀ a ∈ l, f a = g a) : l.flatMap f = l.flatMap g := by
  induction l with
  | nil => rfl
  | cons a l ih =>
    rw [List.flatMap_cons, List.flatMap_cons, h a (List.mem_cons_self a l),
      ih (fun b hb => h b (List.mem_cons_of_mem a hb))]

theorem flatMap_filter {α β : Type} (l : List α) (q : α → Bool) (f : α → List β) :
    (l.filter q).flatMap f = l.flatMap (fun a => if q a then f a else []) := by
  induction l with
  | nil => rfl
  | cons a l ih =>
    rw [List.filter_cons]
    cases hq : q a <;> simp [hq, List.flatMap_cons, ih]

theorem flatMap_pure {α β : Type} (l : List α) (f : α → β) :
    l.flatMap (fun a => [f a]) = l.map f := by
  induction l with
  | nil => rfl
  | cons a l ih => rw [List.flatMap_cons, List.map_cons, ih]; rfl

theorem mem_anJoined {trackArtists : List TrackArtist} {artists : List Artist}
    {tracks : List Track} {x : TrackArtist × Artist × Track} :
    x ∈ anJoined trackArtists artists tracks ↔
      x.1 ∈ trackArtists ∧ x.2.1 ∈ artists ∧ x.2.1.id = x.1.artistId ∧
        x.2.2 ∈ tracks ∧ x.2.2.id = x.1.trackId := by
  unfold anJoined
  rw [List.mem_flatMap]
  constructor
  · rintro ⟨r, hr, hmem⟩
    rcases List.mem_flatMap.1 hmem with ⟨a, haf, hmem2⟩
    rcases List.mem_filter.1 haf with ⟨haA, hida⟩
    rcases List.mem_map.1 hmem2 with ⟨t2, ht2f, heq⟩
    rcases List.mem_filter.1 ht2f with ⟨ht2T, hidt⟩
    subst heq
    exact ⟨hr, haA, by simpa using hida, ht2T, by simpa using hidt⟩
  · rintro ⟨h1, h2, h3, h4, h5⟩
    refine ⟨x.1, h1, List.mem_flatMap.2 ⟨x.2.1, List.mem_filter.2 ⟨h2, by simp [h3]⟩, ?_⟩⟩
    exact List.mem_map.2 ⟨x.2.2, List.mem_filter.2 ⟨h4, by simp [h5]⟩, rfl⟩

instance : IsTotal (TrackArtist × Artist × Track) (fun x y => anRank x ≤ anRank y) :=
  ⟨fun _ _ => Nat.le_total _ _⟩

instance : IsTrans (TrackArtist × Artist × Track) (fun x y => anRank x ≤ anRank y) :=
  ⟨fun _ _ _ => Nat.le_trans⟩

theorem anJoined_names_filter {trackArtists : List TrackArtist} {artists : List Artist}
    {tracks : List Track} (ht : (tracks.map Track.id).Nodup) {t : Track}
    (htm : t ∈ tracks) :
    ((anJoined trackArtists artists tracks).filter
        (fun x => x.1.trackId == t.id)).map (fun x => x.2.1.name) =
      assocArtistNames trackArtists artists t.id := by
  unfold anJoined assocArtistNames
  rw [List.filter_flatMap, List.map_flatMap, flatMap_filter]
  apply flatMap_congr
  intro r _
  cases hrt : r.trackId == t.id
  · simp only [if_false, Bool.false_eq_true]
    rw [List.map_eq_nil_iff, List.filter_eq_nil_iff]
    intro b hb
    rcases List.mem_flatMap.1 hb with ⟨a, _, hmem⟩
    rcases List.mem_map.1 hmem with ⟨t2, _, heq⟩
    subst heq
    simp only [hrt]
    exact fun h => by cases h
  · simp only [if_true]
    have hfil : tracks.filter (fun t2 => t2.id == r.trackId) = [t] :=
      filter_key_eq ht htm (beq_iff_eq.1 hrt).symm
    have hsel : (List.filter (fun x => x.1.trackId == t.id)
        ((artists.filter (fun a => a.id == r.artistId)).flatMap (fun a =>
          (tracks.filter (fun t2 => t2.id == r.trackId)).map (fun t2 => (r, a, t2))))) =
        ((artists.filter (fun a => a.id == r.artistId)).flatMap (fun a =>
          (tracks.filter (fun t2 => t2.id == r.trackId)).map (fun t2 => (r, a, t2)))) := by
      rw [List.filter_eq_self]
      intro b hb
      rcases List.mem_flatMap.1 hb with ⟨a, _, hmem⟩
      rcases List.mem_map.1 hmem with ⟨t2, _, heq⟩
      subst heq
      exact hrt
    rw [hsel, List.map_flatMap]
    have hpt : ∀ a ∈ artists.filter (fun a => a.id == r.artistId),
        List.map (fun x : TrackArtist × Artist × Track => x.2.1.name)
          (List.map (fun t2 => (r, a, t2)) (tracks.filter (fun t2 => t2.id == r.trackId))) =
          [a.name] := by
      intro a _
      rw [hfil]
      rfl
    rw [flatMap_congr hpt, flatMap_pure]

theorem anRows_for_track {trackArtists : List TrackArtist} {artists : List Artist}
    {tracks : List Track} (h_tid : (tracks.map Track.id).Nodup)
    (h_aid : (artists.map Artist.id).Nodup) {t : Track} (htm : t ∈ tracks)
    {rp : TrackArtist} (hrp : rp ∈ trackArtists) (hrpt : rp.trackId = t.id)
    (hrpa : rp.artistId = t.artistId) {p : Artist} (hpA : p ∈ artists)
    (hpid : p.id = t.artistId) :
    ∃ names : List String,
      names.head? = some p.name ∧
      names.Perm (assocArtistNames trackArtists artists t.id) ∧
      ((anRows trackArtists artists tracks).map Prod.fst).Nodup ∧
      (anRows trackArtists artists tracks).filter (fun ar => ar.1 == t.id) =
        [(t.id, String.intercalate ", " names)] := by
  have hxpJ : ((rp, p, t) : TrackArtist × Artist × Track) ∈
      anJoined trackArtists artists tracks :=
    mem_anJoined.2 ⟨hrp, hpA, hpid.trans hrpa.symm, htm, hrpt.symm⟩
  have hxpg : ((rp, p, t) : TrackArtist × Artist × Track) ∈
      (anJoined trackArtists artists tracks).filter (fun x => x.1.trackId == t.id) :=
    List.mem_filter.2 ⟨hxpJ, by simp [hrpt]⟩
  have hperm : (List.insertionSort (fun x y => anRank x ≤ anRank y)
      ((anJoined trackArtists artists tracks).filter
        (fun x => x.1.trackId == t.id))).Perm
      ((anJoined trackArtists artists tracks).filter (fun x => x.1.trackId == t.id)) :=
    List.perm_insertionSort _ _
  set g := (anJoined trackArtists artists tracks).filter (fun x => x.1.trackId == t.id)
    with hgdef
  set S := List.insertionSort (fun x y => anRank x ≤ anRank y) g with hSdef
  have hxpS : ((rp, p, t) : TrackArtist × Artist × Track) ∈ S := hperm.mem_iff.2 hxpg
  have hSne : S ≠ [] := List.ne_nil_of_mem hxpS
  have hsorted : List.Sorted (fun x y => anRank x ≤ anRank y) S :=
    List.sorted_insertionSort _ _
  have hcons : S.head hSne :: S.tail = S := List.head_cons_tail S hSne
  have hhg : S.head hSne ∈ g := hperm.mem_iff.1 (List.head_mem hSne)
  have hhle : anRank (S.head hSne) ≤ anRank (rp, p, t) := by
    rw [← hcons] at hxpS
    rcases List.mem_cons.1 hxpS with heq | hmem
    · rw [heq]
    · rw [← hcons] at hsorted
      exact (List.sorted_cons.1 hsorted).1 _ hmem
  have hrankp : anRank ((rp, p, t) : TrackArtist × Artist × Track) = 1 := by
    simp [anRank, hrpa]
  have hrank1 : anRank (S.head hSne) = 1 := by
    have h1le : 1 ≤ anRank (S.head hSne) := by
      unfold anRank
      split <;> omega
    omega
  rcases List.mem_filter.1 hhg with ⟨hhJ, hhtid⟩
  rcases mem_anJoined.1 hhJ with ⟨_, hha, hhaid, hht, hhtid2⟩
  have hht2 : (S.head hSne).2.2 = t := by
    apply List.inj_on_of_nodup_map h_tid hht htm
    rw [hhtid2]
    exact beq_iff_eq.1 hhtid
  have hhart : (S.head hSne).1.artistId = (S.head hSne).2.2.artistId := by
    by_contra hne
    have : anRank (S.head hSne) = 2 := by
      unfold anRank
      rw [if_neg (by simpa using hne)]
    omega
  have hhp : (S.head hSne).2.1 = p := by
    apply List.inj_on_of_nodup_map h_aid hha hpA
    rw [hhaid, hhart, hht2, hpid]
  refine ⟨S.map (fun x => x.2.1.name), ?_, ?_, ?_, ?_⟩
  · rw [List.head?_map, List.head?_eq_head hSne]
    simp [hhp]
  · have h1 : (S.map (fun x => x.2.1.name)).Perm (g.map (fun x => x.2.1.name)) :=
      hperm.map _
    rw [anJoined_names_filter h_tid htm] at h1
    exact h1
  · unfold anRows
    rw [List.map_map]
    have : ((fun ar : String × String => ar.1) ∘ fun tid =>
        ((tid, String.intercalate ", "
          ((List.insertionSort (fun x y => anRank x ≤ anRank y)
            ((anJoined trackArtists artists tracks).filter
              (fun x => x.1.trackId == tid))).map (fun x => x.2.1.name))) :
            String × String)) = fun tid => tid := rfl
    rw [this]
    have hid : (((anJoined trackArtists artists tracks).map
        (fun x => x.1.trackId)).dedup).map (fun tid => tid) =
        ((anJoined trackArtists artists tracks).map (fun x => x.1.trackId)).dedup := by
      rw [show (fun tid : String => tid) = id from rfl, List.map_id]
    rw [hid]
    exact List.nodup_dedup _
  · have hmemAR : (t.id, String.intercalate ", " (S.map (fun x => x.2.1.name))) ∈
        anRows trackArtists artists tracks := by
      unfold anRows
      refine List.mem_map.2 ⟨t.id, ?_, ?_⟩
      · exact List.mem_dedup.2 (List.mem_map.2 ⟨(rp, p, t), hxpJ, hrpt⟩)
      · rw [hSdef, hgdef]
    have hNfst : ((anRows trackArtists artists tracks).map Prod.fst).Nodup := by
      unfold anRows
      rw [List.map_map]
      have : (Prod.fst ∘ fun tid =>
          ((tid, String.intercalate ", "
            ((List.insertionSort (fun x y => anRank x ≤ anRank y)
              ((anJoined trackArtists artists tracks).filter
                (fun x => x.1.trackId == tid))).map (fun x => x.2.1.name))) :
              String × String)) = fun tid => tid := rfl
      rw [this]
      have hid : (((anJoined trackArtists artists tracks).map
          (fun x => x.1.trackId)).dedup).map (fun tid => tid) =
          ((anJoined trackArtists artists tracks).map (fun x => x.1.trackId)).dedup := by
        rw [show (fun tid : String => tid) = id from rfl, List.map_id]
      rw [hid]
      exact List.nodup_dedup _
    exact filter_key_eq hNfst hmemAR rfl

/-- C6: for every canonical track (target of at least one mapping entry) with
an association to its own primary artist, the consolidated rebuild emits
exactly one row for it, whose aggregated string is the display names of the
artists associated to its track id joined by the delimiter comma-space with
the track's own primary artist's name first. -/
theorem claim_C6_consolidated_artist_names :
    ∀ (tracks : List Track) (mapping : List (String × String))
      (trackArtists : List TrackArtist) (artists : List Artist),
      (tracks.map Track.id).Nodup → (artists.map Artist.id).Nodup →
      ∀ t ∈ tracks, (∃ tm ∈ mapping, tm.2 = t.uri) →
      ∀ rp ∈ trackArtists, rp.trackId = t.id → rp.artistId = t.artistId →
      ∀ p ∈ artists, p.id = t.artistId →
      ∃ names : List String,
        names.head? = some p.name ∧
        names.Perm (assocArtistNames trackArtists artists t.id) ∧
        (tracksConsolidated tracks mapping trackArtists artists).filter
            (fun row => row.1 == t) =
          [(t, String.intercalate ", " names)] := by
  intro tracks mapping trackArtists artists h_tid h_aid t htmT hcanon rp hrp hrpt hrpa
    p hpA hpid
  rcases hcanon with ⟨tm, htmM, htm2⟩
  rcases anRows_for_track h_tid h_aid htmT hrp hrpt hrpa hpA hpid with
    ⟨names, hhead, hperm, _, hfilAR⟩
  refine ⟨names, hhead, hperm, ?_⟩
  unfold tracksConsolidated
  apply filter_nodup_singleton (List.nodup_dedup _)
  · refine List.mem_dedup.2 (List.mem_flatMap.2 ⟨t, htmT, ?_⟩)
    refine List.mem_flatMap.2 ⟨tm, List.mem_filter.2 ⟨htmM, by simp [htm2]⟩, ?_⟩
    refine List.mem_map.2 ⟨(t.id, String.intercalate ", " names), ?_, rfl⟩
    rw [hfilAR]
    exact List.mem_singleton.2 rfl
  · simp
  · intro y hy hyt
    have hyP := List.mem_dedup.1 hy
    rcases List.mem_flatMap.1 hyP with ⟨t', ht', hy2⟩
    rcases List.mem_flatMap.1 hy2 with ⟨tm', _, hy3⟩
    rcases List.mem_map.1 hy3 with ⟨ar, harf, heq⟩
    have ht't : t' = t := by
      rw [← heq] at hyt
      exact beq_iff_eq.1 hyt
    rw [ht't] at harf
    rw [hfilAR] at harf
    have har : ar = (t.id, String.intercalate ", " names) := List.mem_singleton.1 harf
    rw [← heq, ht't, har]

/-- Witness for C6: the hypotheses are discharged on a one-track instance
whose canonical track has a primary and a contributing artist. -/
theorem claim_C6_witness :
    ([trA].map Track.id).Nodup ∧ ([primArtist, featArtist].map Artist.id).Nodup ∧
      trA ∈ [trA] ∧ (("uri:A", "uri:A") : String × String).2 = trA.uri ∧
      taPrim.trackId = trA.id ∧ taPrim.artistId = trA.artistId ∧
      primArtist.id = trA.artistId ∧
      ∃ names : List String,
        names.head? = some primArtist.name ∧
        names.Perm (assocArtistNames [taPrim, taFeat] [primArtist, featArtist] trA.id) ∧
        (tracksConsolidated [trA] [("uri:A", "uri:A")] [taPrim, taFeat]
            [primArtist, featArtist]).filter (fun row => row.1 == trA) =
          [(trA, String.intercalate ", " names)] :=
  ⟨by decide, by decide, by decide, by decide, by decide, by decide, by decide,
    claim_C6_consolidated_artist_names [trA] [("uri:A", "uri:A")] [taPrim, taFeat]
      [primArtist, featArtist] (by decide) (by decide) trA (by decide)
      ⟨("uri:A", "uri:A"), by decide, by decide⟩ taPrim (by decide) (by decide)
      (by decide) primArtist (by decide) (by decide)⟩
